import Mathlib

/-!
# Verification of the Sudoku generator/reducer core (`src/generator.rs`)

This file gives a shallow embedding of the generation module of the
`sudoku-variants` crate: the `shuffle` utility, `Generator::generate_rec`,
`Generator::generate` and `Reducer::reduce`, together with theorems checking
the natural-language specification against that code.

Modelling conventions:
* The grid (an external collaborator, spec §6) is a size together with a flat
  list of optional digits, indexed by `row * size + column` as the crate's
  grid does; `get_cell`/`set_cell`/`clear_cell`/`count_clues` are modelled
  from the spec's grid-capability contract.
* The random source is an infinite stream `Nat → Nat` together with a cursor;
  `gen_range(0, hi)` at cursor `k` yields `rng k % hi`, which is uniform on
  `[0, hi)` whenever the stream draw is uniform, and is always in range.
* `generate_rec` is general recursion in Rust; it is embedded with explicit
  fuel, and fuel-sufficiency/stability is proved (claim C9).  `generate`
  supplies fuel `size² + 1`, one unit per visited cell position.
* Fallible collaborator calls that the core `unwrap`s (all in-range by
  construction) are modelled as total list operations.
-/

namespace SudokuGen

/-- The grid of a Sudoku: its side length and its cells in row-major order,
each cell holding either a digit or nothing.  Modelled from the spec:
the grid capability of §6 (external to `src/generator.rs`). -/
structure GridS where
  size : Nat
  cells : List (Option Nat)
deriving DecidableEq

/-- Modelled from the spec: `get_cell(col, row)` of the grid capability.
Reads the cell at zero-based coordinates; out-of-range reads (never performed
by the core) default to empty. -/
def getCell (g : GridS) (column row : Nat) : Option Nat :=
  g.cells.getD (row * g.size + column) none

/-- Modelled from the spec: `set_cell(col, row, digit)` of the grid
capability. -/
def setCell (g : GridS) (column row number : Nat) : GridS :=
  ⟨g.size, g.cells.set (row * g.size + column) (some number)⟩

/-- Modelled from the spec: `clear_cell(col, row)` of the grid capability. -/
def clearCell (g : GridS) (column row : Nat) : GridS :=
  ⟨g.size, g.cells.set (row * g.size + column) none⟩

/-- Modelled from the spec: `count_clues()` of the grid capability — the
number of non-empty cells. -/
def countClues (g : GridS) : Nat :=
  g.cells.countP (fun o => o.isSome)

/-- A constraint, as the core sees it (spec §3): a deterministic,
side-effect-free answer to "would digit `number` at `(column, row)` be valid
given the current grid contents?".  This is `Sudoku::is_valid_number`
delegating to the constraint. -/
abbrev Constraint := GridS → Nat → Nat → Nat → Bool

/-- Modelled from the spec: the two error kinds of §7 that surface from the
core (`error.rs` is external to `src/generator.rs`). -/
inductive SudokuError where
  | InvalidDimensions
  | UnsatisfiableConstraint
deriving DecidableEq

/-- Modelled from the spec: the external puzzle constructor
`Sudoku::new_empty(block_width, block_height, constraint)` — fails with
*invalid dimensions* when either dimension is zero, otherwise yields an
empty `size × size` grid with `size = block_width * block_height` (§6). -/
def newEmpty (blockWidth blockHeight : Nat) : Except SudokuError GridS :=
  if blockWidth = 0 ∨ blockHeight = 0 then
    Except.error SudokuError.InvalidDimensions
  else
    Except.ok ⟨blockWidth * blockHeight,
      List.replicate (blockWidth * blockHeight * (blockWidth * blockHeight)) none⟩

/-- `vec.swap(i, j)` on a list; identity when an index is out of range
(the crate's loop only produces in-range indices). -/
def listSwap {α : Type} (l : List α) (i j : Nat) : List α :=
  match l[i]?, l[j]? with
  | some a, some b => (l.set i b).set j a
  | _, _ => l

/-- The crate's `shuffle` (generator.rs lines 33–43): collect the input,
then `for i in 1..(len - 1) { let j = rng.gen_range(0, i + 1); vec.swap(i, j); }`.
The Rust range `1..(len - 1)` is `[1, len − 2]`; for `len ≤ 1` it is empty
(Nat subtraction models the in-crate uses, where `len ≥ 1` always).
Returns the shuffled list and the advanced rng cursor. -/
def shuffle {α : Type} (rng : Nat → Nat) (k : Nat) (l : List α) : List α × Nat :=
  (List.range' 1 (l.length - 1 - 1)).foldl
    (fun acc i => (listSwap acc.1 i (rng acc.2 % (i + 1)), acc.2 + 1))
    (l, k)

/-- `(column + 1) % size` — generator.rs line 63. -/
def nextColumn (column size : Nat) : Nat := (column + 1) % size

/-- `if next_column == 0 { row + 1 } else { row }` — generator.rs lines 64–65. -/
def nextRow (column row size : Nat) : Nat :=
  if (column + 1) % size = 0 then row + 1 else row

/-- The candidate loop of `generate_rec` (generator.rs lines 67–77):
for each number in the (already shuffled) candidate list, if the constraint
accepts it, set the cell and run `step` (the recursive call at the next
position); propagate the first success, otherwise clear the cell and
continue. -/
def tryNumbers (C : Constraint) (step : GridS → Nat → Bool × GridS × Nat)
    (column row : Nat) : List Nat → GridS → Nat → Bool × GridS × Nat
  | [], g, k => (false, g, k)
  | n :: rest, g, k =>
    if C g column row n then
      let g1 := setCell g column row n
      let res := step g1 k
      if res.1 then res
      else tryNumbers C step column row rest (clearCell res.2.1 column row) res.2.2
    else
      tryNumbers C step column row rest g k

/-- `Generator::generate_rec` (generator.rs lines 55–80), with explicit fuel
for the general recursion and explicit state passing of the grid and the rng
cursor.  With fuel `0` the search reports failure without touching the grid;
`generate` supplies sufficient fuel (see `generateRec_fuel_stable`). -/
def generateRec (C : Constraint) (rng : Nat → Nat) :
    Nat → GridS → Nat → Nat → Nat → Bool × GridS × Nat
  | 0, g, k, _, _ => (false, g, k)
  | fuel + 1, g, k, column, row =>
    let size := g.size
    if row = size then (true, g, k)
    else
      let s := shuffle rng k (List.range' 1 size)
      tryNumbers C
        (fun g1 k1 => generateRec C rng fuel g1 k1 (nextColumn column size)
          (nextRow column row size))
        column row s.1 g s.2

/-- `Generator::generate` (generator.rs lines 109–120): build an empty puzzle
(may fail with invalid dimensions), then run the recursive search from
`(0, 0)`; a failed search is reported as an unsatisfiable constraint.
Fuel `size² + 1` covers the `size² + 1` positions `(0,0) … (0,size)` the
search can occupy. -/
def generate (C : Constraint) (rng : Nat → Nat) (k : Nat)
    (blockWidth blockHeight : Nat) : Except SudokuError (GridS × Nat) :=
  match newEmpty blockWidth blockHeight with
  | Except.error e => Except.error e
  | Except.ok g =>
    let res := generateRec C rng (g.size * g.size + 1) g k 0 0
    if res.1 then Except.ok (res.2.1, res.2.2)
    else Except.error SudokuError.UnsatisfiableConstraint

/-- Modelled from the spec: the solver capability's ternary verdict (§3, §6):
no valid completion / exactly one (carrying it) / two or more. -/
inductive SolutionR where
  | Impossible
  | Unique (g : GridS)
  | Ambiguous

/-- A solver, as the reducer sees it: a function from the current grid (the
puzzle's constraint is baked in) to a verdict.  Deterministic and
side-effect-free by construction. -/
abbrev SolverT := GridS → SolutionR

/-- `if let Solution::Unique(_) = … ` — does the verdict report a unique
completion? -/
def uniqueB : SolutionR → Bool
  | SolutionR.Unique _ => true
  | _ => false

/-- The coordinate enumeration of `Reducer::reduce` (generator.rs lines
174–176): `(0..size).flat_map(|column| (0..size).map(move |row| (column, row)))`. -/
def coordsList (size : Nat) : List (Nat × Nat) :=
  (List.range size).flatMap (fun column => (List.range size).map (fun row => (column, row)))

/-- One iteration of the `reduce` loop (generator.rs lines 178–188): skip an
empty cell; otherwise clear it, and restore the remembered digit unless the
solver still reports a unique solution. -/
def reduceStep (S : SolverT) (g : GridS) (p : Nat × Nat) : GridS :=
  match getCell g p.1 p.2 with
  | none => g
  | some number =>
    let g1 := clearCell g p.1 p.2
    match S g1 with
    | SolutionR.Unique _ => g1
    | _ => setCell g1 p.1 p.2 number

/-- The grid as reduced after the first `i` iterations of the `reduce` loop
(the whole loop when `i` is the coordinate count). -/
def reducePartial (S : SolverT) (rng : Nat → Nat) (k : Nat) (g : GridS) (i : Nat) : GridS :=
  (((shuffle rng k (coordsList g.size)).1.take i)).foldl (reduceStep S) g

/-- `Reducer::reduce` (generator.rs lines 173–189): shuffle the coordinate
list once, then make one greedy keep-or-restore pass over it.  Returns the
reduced grid and the advanced rng cursor; there is no error outcome. -/
def reduce (S : SolverT) (rng : Nat → Nat) (k : Nat) (g : GridS) : GridS × Nat :=
  let s := shuffle rng k (coordsList g.size)
  (s.1.foldl (reduceStep S) g, s.2)

/-- The grid truncated to the cells strictly before flat position `m`
(later cells cleared): the state the grid was in when position `m` was
filled on the successful search branch. -/
def prefixGrid (g : GridS) (m : Nat) : GridS :=
  ⟨g.size, g.cells.take m ++ List.replicate (g.cells.length - m) none⟩

/-- All cells at flat positions `≥ m` are empty. -/
def EmptyFrom (g : GridS) (m : Nat) : Prop :=
  ∀ i, m ≤ i → g.cells.getD i none = none

/-- `g'` extends `g` from flat position `m` on: same size and cell count,
identical below `m`, and at every position from `m` up to `size²` it holds a
digit in `1..=size` that the constraint accepted against the prefix grid at
the moment of its placement. -/
def ExtendsFrom (C : Constraint) (g : GridS) (m : Nat) (g' : GridS) : Prop :=
  g'.size = g.size ∧ g'.cells.length = g.cells.length ∧
    (∀ i, i < m → g'.cells.getD i none = g.cells.getD i none) ∧
    (∀ i, m ≤ i → i < g.size * g.size →
      ∃ d, g'.cells.getD i none = some d ∧ 1 ≤ d ∧ d ≤ g.size ∧
        C (prefixGrid g' i) (i % g.size) (i / g.size) d = true)

/-- A full grid of side `n` every cell of which holds a digit in `1..=n`
accepted by the constraint against the prefix grid at its placement moment —
exactly the grids the exhaustive search can produce. -/
def PrefixCompletion (C : Constraint) (n : Nat) (g' : GridS) : Prop :=
  g'.size = n ∧ g'.cells.length = n * n ∧
    (∀ i, i < n * n →
      ∃ d, g'.cells.getD i none = some d ∧ 1 ≤ d ∧ d ≤ n ∧
        C (prefixGrid g' i) (i % n) (i / n) d = true)

/-! ## Concrete instances used to evaluate the definitions -/

/-- A degenerate random stream: every draw is `0`. -/
def rngZero : Nat → Nat := fun _ => 0

/-- The constraint that accepts every placement. -/
def constraintTrue : Constraint := fun _ _ _ _ => true

/-- The constraint that rejects every placement. -/
def constraintFalse : Constraint := fun _ _ _ _ => false

/-- A constraint that accepts placements only at the top-left cell `(0, 0)`. -/
def constraintTopLeft : Constraint := fun _ column row _ => column == 0 && row == 0

/-- A constraint that accepts a placement anywhere exactly while the cell at
flat position `3` (cell `(1, 1)` of a `2 × 2` grid) is still empty.  It is
deterministic and side-effect-free, but its verdict at one cell changes when
another cell is filled later. -/
def constraintCellThreeEmpty : Constraint := fun g _ _ _ => (g.cells.getD 3 none).isNone

/-- The solver that reports every grid as uniquely solvable. -/
def solverAlwaysUnique : SolverT := fun g => SolutionR.Unique g

/-- The solver that reports every grid as ambiguous. -/
def solverAmbiguous : SolverT := fun _ => SolutionR.Ambiguous

/-! ## Shuffle lemmas -/

theorem listSwap_length {α : Type} (l : List α) (i j : Nat) :
    (listSwap l i j).length = l.length := by
  unfold listSwap
  cases hi : l[i]? <;> cases hj : l[j]? <;> simp

theorem swapHead_perm {α : Type} :
    ∀ (t : List α) (m : Nat) (a b : α), t[m]? = some b →
      (b :: t.set m a).Perm (a :: t)
  | [], m, _, _, h => by simp at h
  | y :: t', 0, a, b, h => by
    have hb : y = b := by simpa using h
    have h1 : (y :: t').set 0 a = a :: t' := by simp
    rw [h1, ← hb]
    exact List.Perm.swap a y t'
  | y :: t', m' + 1, a, b, h => by
    have h' : t'[m']? = some b := by simpa using h
    have ih := swapHead_perm t' m' a b h'
    have h1 : (y :: t').set (m' + 1) a = y :: t'.set m' a := by simp
    rw [h1]
    exact ((List.Perm.swap y b _).trans (ih.cons y)).trans (List.Perm.swap a y t')

theorem set_pair_perm {α : Type} :
    ∀ (l : List α) (i j : Nat) (a b : α), l[i]? = some a → l[j]? = some b →
      ((l.set i b).set j a).Perm l
  | [], i, _, _, _, hi, _ => by simp at hi
  | x :: t, 0, 0, a, b, hi, hj => by
    have ha : x = a := by simpa using hi
    have h1 : ((x :: t).set 0 b).set 0 a = a :: t := by simp
    rw [h1, ← ha]
  | x :: t, 0, j' + 1, a, b, hi, hj => by
    have ha : x = a := by simpa using hi
    have hj' : t[j']? = some b := by simpa using hj
    have h1 : ((x :: t).set 0 b).set (j' + 1) a = b :: t.set j' a := by simp
    rw [h1, ha]
    exact swapHead_perm t j' a b hj'
  | x :: t, i' + 1, 0, a, b, hi, hj => by
    have hb : x = b := by simpa using hj
    have hi' : t[i']? = some a := by simpa using hi
    have h1 : ((x :: t).set (i' + 1) b).set 0 a = a :: t.set i' b := by simp
    rw [h1, hb]
    exact swapHead_perm t i' b a hi'
  | x :: t, i' + 1, j' + 1, a, b, hi, hj => by
    have hi' : t[i']? = some a := by simpa using hi
    have hj' : t[j']? = some b := by simpa using hj
    have h1 : ((x :: t).set (i' + 1) b).set (j' + 1) a = x :: (t.set i' b).set j' a := by
      simp
    rw [h1]
    exact (set_pair_perm t i' j' a b hi' hj').cons x

theorem listSwap_perm {α : Type} (l : List α) (i j : Nat) :
    (listSwap l i j).Perm l := by
  unfold listSwap
  cases hi : l[i]? with
  | none => exact List.Perm.refl l
  | some a =>
    cases hj : l[j]? with
    | none => exact List.Perm.refl l
    | some b => exact set_pair_perm l i j a b hi hj

theorem listSwap_getElem?_ne {α : Type} (l : List α) (i j m : Nat)
    (hmi : m ≠ i) (hmj : m ≠ j) : (listSwap l i j)[m]? = l[m]? := by
  unfold listSwap
  cases hi : l[i]? <;> cases hj : l[j]? <;>
    simp_all [List.getElem?_set_ne (Ne.symm hmj), List.getElem?_set_ne (Ne.symm hmi)]

theorem shuffle_perm {α : Type} (rng : Nat → Nat) (k : Nat) (l : List α) :
    (shuffle rng k l).1.Perm l := by
  unfold shuffle
  refine List.foldlRecOn _ _ _ (motive := fun (acc : List α × Nat) => acc.1.Perm l) (List.Perm.refl l) ?_
  intro acc hacc i _
  exact (listSwap_perm acc.1 i (rng acc.2 % (i + 1))).trans hacc

theorem shuffle_length {α : Type} (rng : Nat → Nat) (k : Nat) (l : List α) :
    (shuffle rng k l).1.length = l.length :=
  (shuffle_perm rng k l).length_eq

theorem shuffle_getLast? {α : Type} (rng : Nat → Nat) (k : Nat) (l : List α) :
    (shuffle rng k l).1.getLast? = l.getLast? := by
  have key : (shuffle rng k l).1.length = l.length ∧
      (shuffle rng k l).1[l.length - 1]? = l[l.length - 1]? := by
    unfold shuffle
    refine List.foldlRecOn _ _ _
      (motive := fun (acc : List α × Nat) => acc.1.length = l.length ∧ acc.1[l.length - 1]? = l[l.length - 1]?)
      ⟨rfl, rfl⟩ ?_
    intro acc hacc i hi
    rw [List.mem_range'_1] at hi
    have hlen : 3 ≤ l.length := by omega
    have hil : i < l.length - 1 := by omega
    have hjl : rng acc.2 % (i + 1) < l.length - 1 :=
      lt_of_lt_of_le (Nat.mod_lt _ (Nat.succ_pos i)) (by omega)
    refine ⟨(listSwap_length _ _ _).trans hacc.1, ?_⟩
    rw [listSwap_getElem?_ne _ _ _ _ (by omega) (by omega)]
    exact hacc.2
  rw [List.getLast?_eq_getElem?, List.getLast?_eq_getElem?, key.1, key.2]

/-! ## Grid operation lemmas -/

theorem set_self_of_getElem? {α : Type} :
    ∀ (l : List α) (i : Nat) (a : α), l[i]? = some a → l.set i a = l
  | [], i, a, h => by simp at h
  | x :: t, 0, a, h => by
    have : x = a := by simpa using h
    simp [← this]
  | x :: t, i + 1, a, h => by
    have h' : t[i]? = some a := by simpa using h
    simp [set_self_of_getElem? t i a h']

theorem getD_eq_some {α : Type} (l : List α) (i : Nat) (d a : α) (hda : a ≠ d)
    (h : l.getD i d = a) : l[i]? = some a := by
  rw [List.getD_eq_getElem?_getD] at h
  cases hi : l[i]? with
  | none => rw [hi] at h; simp at h; exact absurd h.symm hda
  | some b => rw [hi] at h; simp at h; rw [h]

/-- Restoring a remembered digit after a trial clear reproduces the original
grid exactly. -/
theorem restore_eq (g : GridS) (column row n : Nat)
    (h : getCell g column row = some n) :
    setCell (clearCell g column row) column row n = g := by
  unfold getCell at h
  have h' : g.cells[row * g.size + column]? = some (some n) :=
    getD_eq_some _ _ _ _ (by simp) h
  unfold setCell clearCell
  simp only [List.set_set]
  rw [set_self_of_getElem? _ _ _ h']

theorem setCell_size (g : GridS) (c r n : Nat) : (setCell g c r n).size = g.size := rfl

theorem clearCell_size (g : GridS) (c r : Nat) : (clearCell g c r).size = g.size := rfl

theorem setCell_length (g : GridS) (c r n : Nat) :
    (setCell g c r n).cells.length = g.cells.length := by simp [setCell]

theorem clearCell_length (g : GridS) (c r : Nat) :
    (clearCell g c r).cells.length = g.cells.length := by simp [clearCell]

/-! ## Reducer lemmas -/

theorem reduceStep_of_empty (S : SolverT) (g : GridS) (p : Nat × Nat)
    (hc : getCell g p.1 p.2 = none) : reduceStep S g p = g := by
  unfold reduceStep
  rw [hc]

theorem reduceStep_of_unique (S : SolverT) (g : GridS) (p : Nat × Nat) (n : Nat)
    (hc : getCell g p.1 p.2 = some n)
    (hs : uniqueB (S (clearCell g p.1 p.2)) = true) :
    reduceStep S g p = clearCell g p.1 p.2 := by
  unfold reduceStep
  rw [hc]
  dsimp only
  cases hS : S (clearCell g p.1 p.2) with
  | Unique g2 => rfl
  | Impossible => rw [hS] at hs; simp [uniqueB] at hs
  | Ambiguous => rw [hS] at hs; simp [uniqueB] at hs

theorem reduceStep_of_not_unique (S : SolverT) (g : GridS) (p : Nat × Nat) (n : Nat)
    (hc : getCell g p.1 p.2 = some n)
    (hs : uniqueB (S (clearCell g p.1 p.2)) = false) :
    reduceStep S g p = g := by
  unfold reduceStep
  rw [hc]
  dsimp only
  cases hS : S (clearCell g p.1 p.2) with
  | Unique g2 => rw [hS] at hs; simp [uniqueB] at hs
  | Impossible => exact restore_eq g p.1 p.2 n hc
  | Ambiguous => exact restore_eq g p.1 p.2 n hc

/-- One reduce iteration sends a solver-unique grid to a solver-unique grid:
either the cell was empty (no change), or the clear kept uniqueness, or the
digit was restored and the grid is exactly the one before the iteration. -/
theorem reduceStep_preserves_unique (S : SolverT) (g : GridS) (p : Nat × Nat)
    (h : uniqueB (S g) = true) : uniqueB (S (reduceStep S g p)) = true := by
  cases hc : getCell g p.1 p.2 with
  | none => rw [reduceStep_of_empty S g p hc]; exact h
  | some n =>
    cases hs : uniqueB (S (clearCell g p.1 p.2)) with
    | true => rw [reduceStep_of_unique S g p n hc hs]; exact hs
    | false => rw [reduceStep_of_not_unique S g p n hc hs]; exact h

theorem foldl_reduceStep_unique (S : SolverT) :
    ∀ (l : List (Nat × Nat)) (g : GridS), uniqueB (S g) = true →
      uniqueB (S (l.foldl (reduceStep S) g)) = true
  | [], _, h => h
  | p :: t, g, h =>
    foldl_reduceStep_unique S t (reduceStep S g p) (reduceStep_preserves_unique S g p h)

theorem reduceStep_pointwise (S : SolverT) (g : GridS) (p : Nat × Nat) :
    (reduceStep S g p).size = g.size ∧
    (reduceStep S g p).cells.length = g.cells.length ∧
    ∀ idx, (reduceStep S g p).cells.getD idx none = none ∨
      (reduceStep S g p).cells.getD idx none = g.cells.getD idx none := by
  cases hc : getCell g p.1 p.2 with
  | none => rw [reduceStep_of_empty S g p hc]; exact ⟨rfl, rfl, fun _ => Or.inr rfl⟩
  | some n =>
    cases hs : uniqueB (S (clearCell g p.1 p.2)) with
    | false => rw [reduceStep_of_not_unique S g p n hc hs]; exact ⟨rfl, rfl, fun _ => Or.inr rfl⟩
    | true =>
      rw [reduceStep_of_unique S g p n hc hs]
      refine ⟨rfl, clearCell_length g p.1 p.2, fun idx => ?_⟩
      by_cases hidx : idx = p.2 * g.size + p.1
      · subst hidx
        by_cases hlen : p.2 * g.size + p.1 < g.cells.length
        · left
          simp [clearCell, List.getD_eq_getElem?_getD, List.getElem?_set_self hlen]
        · right
          simp [clearCell, List.set_eq_of_length_le (Nat.le_of_not_lt hlen)]
      · right
        simp [clearCell, List.getD_eq_getElem?_getD,
          List.getElem?_set_ne (fun hn => hidx hn.symm)]

/-- Each reduce iteration leaves every cell either cleared or exactly as the
starting grid had it, and leaves the grid dimensions alone. -/
theorem foldl_reduceStep_pointwise (S : SolverT) :
    ∀ (l : List (Nat × Nat)) (g : GridS),
      (l.foldl (reduceStep S) g).size = g.size ∧
      (l.foldl (reduceStep S) g).cells.length = g.cells.length ∧
      ∀ idx, (l.foldl (reduceStep S) g).cells.getD idx none = none ∨
        (l.foldl (reduceStep S) g).cells.getD idx none = g.cells.getD idx none
  | [], g => ⟨rfl, rfl, fun _ => Or.inr rfl⟩
  | p :: t, g => by
    have step := reduceStep_pointwise S g p
    have ih := foldl_reduceStep_pointwise S t (reduceStep S g p)
    refine ⟨ih.1.trans step.1, ih.2.1.trans step.2.1, fun idx => ?_⟩
    rcases ih.2.2 idx with h1 | h1
    · exact Or.inl h1
    · rcases step.2.2 idx with h2 | h2
      · exact Or.inl (h1.trans h2)
      · exact Or.inr (h1.trans h2)

theorem reduce_eq_foldl (S : SolverT) (rng : Nat → Nat) (k : Nat) (g : GridS) :
    (reduce S rng k g).1 = ((shuffle rng k (coordsList g.size)).1).foldl (reduceStep S) g := rfl

theorem reducePartial_full (S : SolverT) (rng : Nat → Nat) (k : Nat) (g : GridS) :
    reducePartial S rng k g (coordsList g.size).length = (reduce S rng k g).1 := by
  unfold reducePartial
  rw [reduce_eq_foldl]
  rw [← shuffle_length rng k (coordsList g.size), List.take_length]

/-! ## Claims C2, C3, C4, C10 -/

/-- C2: for every (deterministic, here: functional) solver `S` and every
Sudoku grid on which `S` initially reports a unique solution, the grid after
each completed iteration of the `Reducer::reduce` loop — in particular the
final reduced grid — is again one on which `S` reports a unique solution;
no intermediate state judged ambiguous or impossible is ever left in place. -/
theorem c2_reduce_preserves_uniqueness (S : SolverT) (rng : Nat → Nat) (k : Nat)
    (g : GridS) (h : uniqueB (S g) = true) :
    (∀ i, uniqueB (S (reducePartial S rng k g i)) = true) ∧
    uniqueB (S (reduce S rng k g).1) = true := by
  refine ⟨fun i => foldl_reduceStep_unique S _ g h, ?_⟩
  rw [reduce_eq_foldl]
  exact foldl_reduceStep_unique S _ g h

theorem c2_witness :
    uniqueB (solverAlwaysUnique
      (reducePartial solverAlwaysUnique rngZero 0 ⟨1, [some 1]⟩ 1)) = true :=
  (c2_reduce_preserves_uniqueness solverAlwaysUnique rngZero 0 ⟨1, [some 1]⟩ rfl).1 1

/-- C3: after `Reducer::reduce` returns, every cell that was empty before the
call is still empty, and every cell that is non-empty after the call holds
exactly the digit it held before: reduction only ever clears cells or
restores the remembered digit. -/
theorem c3_reduce_monotone_removal (S : SolverT) (rng : Nat → Nat) (k : Nat)
    (g : GridS) (column row : Nat) :
    (getCell g column row = none → getCell (reduce S rng k g).1 column row = none) ∧
    (∀ d, getCell (reduce S rng k g).1 column row = some d →
      getCell g column row = some d) := by
  have key := foldl_reduceStep_pointwise S ((shuffle rng k (coordsList g.size)).1) g
  constructor
  · intro h0
    rw [reduce_eq_foldl]
    unfold getCell at h0 ⊢
    rw [key.1]
    rcases key.2.2 (row * g.size + column) with h | h
    · exact h
    · rw [h]; exact h0
  · intro d hd
    rw [reduce_eq_foldl] at hd
    unfold getCell at hd ⊢
    rw [key.1] at hd
    rcases key.2.2 (row * g.size + column) with h | h
    · rw [h] at hd; exact absurd hd (by simp)
    · rw [← h]; exact hd

theorem c3_witness :
    getCell (reduce solverAmbiguous rngZero 0 ⟨1, [none]⟩).1 0 0 = none :=
  (c3_reduce_monotone_removal solverAmbiguous rngZero 0 ⟨1, [none]⟩ 0 0).1 rfl

/-- C4 counterexample: the claim says `shuffle` yields each of the `N!`
orderings with equal probability; but for the input `[0, 1, 2]` the ordering
`[2, 1, 0]` is produced by **no** random source whatsoever (the final
position never participates in a swap), so its probability is `0`, not
`1/6`. -/
theorem c4_counterexample :
    ¬ ∃ (rng : Nat → Nat) (k : Nat), (shuffle rng k [0, 1, 2]).1 = [2, 1, 0] := by
  rintro ⟨rng, k, h⟩
  have hl := shuffle_getLast? rng k [0, 1, 2]
  rw [h] at hl
  exact absurd hl (by decide)

/-- C4 amended: `shuffle` returns a permutation of its input, but not a
uniform one over all `N!` orderings: the loop runs `i` only over
`1..=N−2` with swap target `j ≤ i`, so the last element never moves
(a Fisher–Yates pass restricted to the first `N−1` positions); only
orderings fixing the last element can ever be produced. -/
theorem c4_amended_shuffle_perm_fixed_last {α : Type} (rng : Nat → Nat)
    (k : Nat) (l : List α) :
    (shuffle rng k l).1.Perm l ∧ (shuffle rng k l).1.getLast? = l.getLast? :=
  ⟨shuffle_perm rng k l, shuffle_getLast? rng k l⟩

/-- C10: for every input of length at least 1 and every random source, the
last element of the list returned by `shuffle` equals the last element of
the input: position `N−1` never participates in any swap. -/
theorem c10_shuffle_fixes_last {α : Type} (rng : Nat → Nat) (k : Nat)
    (l : List α) (h : 1 ≤ l.length) :
    ∃ x, l.getLast? = some x ∧ (shuffle rng k l).1.getLast? = some x := by
  have hne : l ≠ [] := by
    intro he
    rw [he] at h
    simp at h
  have hsome : l.getLast?.isSome := by
    rw [List.getLast?_isSome]
    exact hne
  obtain ⟨x, hx⟩ := Option.isSome_iff_exists.mp hsome
  exact ⟨x, hx, (shuffle_getLast? rng k l).trans hx⟩

theorem c10_witness :
    ∃ x, ([5, 7] : List Nat).getLast? = some x ∧
      (shuffle rngZero 0 [5, 7]).1.getLast? = some x :=
  c10_shuffle_fixes_last rngZero 0 [5, 7] (by decide)

/-! ## Generator: position arithmetic and cell lemmas -/

theorem getD_set_self_of_lt {α : Type} (l : List α) (i : Nat) (v d : α)
    (h : i < l.length) : (l.set i v).getD i d = v := by
  rw [List.getD_eq_getElem?_getD, List.getElem?_set_self h]
  rfl

theorem getD_set_ne {α : Type} (l : List α) (i j : Nat) (v d : α) (h : i ≠ j) :
    (l.set i v).getD j d = l.getD j d := by
  rw [List.getD_eq_getElem?_getD, List.getD_eq_getElem?_getD, List.getElem?_set_ne h]

theorem nextColumn_lt (column n : Nat) (h : column < n) : nextColumn column n < n :=
  Nat.mod_lt _ (by omega)

theorem idx_next (column row n : Nat) (h : column < n) :
    nextRow column row n * n + nextColumn column n = row * n + column + 1 := by
  unfold nextColumn nextRow
  by_cases h1 : (column + 1) % n = 0
  · have h2 : column + 1 = n := by
      by_cases h3 : column + 1 < n
      · rw [Nat.mod_eq_of_lt h3] at h1; omega
      · omega
    rw [if_pos h1, h1, ← h2]
    ring
  · have h3 : (column + 1) % n = column + 1 := by
      rcases Nat.lt_or_ge (column + 1) n with h4 | h4
      · exact Nat.mod_eq_of_lt h4
      · have h5 : column + 1 = n := by omega
        rw [h5, Nat.mod_self] at h1
        exact absurd rfl h1
    rw [if_neg h1, h3]
    ring

theorem nextRow_le (column row n : Nat) (hr : row < n) : nextRow column row n ≤ n := by
  unfold nextRow
  split <;> omega

theorem nextRow_size_imp (column row n : Nat) (hr : row < n)
    (h : nextRow column row n = n) : nextColumn column n = 0 := by
  unfold nextRow at h
  unfold nextColumn
  split at h
  · assumption
  · omega

theorem idx_mod (column row n : Nat) (h : column < n) :
    (row * n + column) % n = column := by
  rw [Nat.add_comm, Nat.add_mul_mod_self_right, Nat.mod_eq_of_lt h]

theorem idx_div (column row n : Nat) (h : column < n) :
    (row * n + column) / n = row := by
  rw [Nat.add_comm, Nat.add_mul_div_right _ _ (by omega : 0 < n),
    Nat.div_eq_of_lt h]
  omega

theorem idx_lt_sq (column row n : Nat) (hc : column < n) (hr : row < n) :
    row * n + column < n * n :=
  calc row * n + column < row * n + n := Nat.add_lt_add_left hc _
    _ = (row + 1) * n := by ring
    _ ≤ n * n := Nat.mul_le_mul_right n (by omega)

theorem emptyFrom_mono (g : GridS) (m m' : Nat) (h : m ≤ m')
    (he : EmptyFrom g m) : EmptyFrom g m' :=
  fun i hi => he i (le_trans h hi)

theorem emptyFrom_setCell (g : GridS) (column row m : Nat)
    (h : EmptyFrom g (row * g.size + column)) :
    EmptyFrom (setCell g column row m) (row * g.size + column + 1) := by
  intro i hi
  unfold setCell
  exact (getD_set_ne _ _ _ _ _ (by omega)).trans (h i (by omega))

/-- Clearing a cell that was just set on top of an empty suffix restores the
grid exactly. -/
theorem clear_setCell (g : GridS) (column row m : Nat)
    (h : g.cells.getD (row * g.size + column) none = none) :
    clearCell (setCell g column row m) column row = g := by
  unfold clearCell setCell
  simp only [List.set_set]
  by_cases hl : row * g.size + column < g.cells.length
  · have h2 : g.cells[row * g.size + column]? = some none := by
      cases h3 : g.cells[row * g.size + column]? with
      | none => rw [List.getElem?_eq_none_iff] at h3; omega
      | some x =>
        rw [List.getD_eq_getElem?_getD, h3] at h
        simp only [Option.getD_some] at h
        rw [h]
    rw [set_self_of_getElem? _ _ _ h2]
  · rw [List.set_eq_of_length_le (Nat.le_of_not_lt hl)]

theorem mem_shuffled_candidates (rng : Nat → Nat) (k n m : Nat) :
    m ∈ (shuffle rng k (List.range' 1 n)).1 ↔ 1 ≤ m ∧ m ≤ n := by
  rw [(shuffle_perm rng k (List.range' 1 n)).mem_iff, List.mem_range'_1]
  omega

/-! ## prefixGrid lemmas -/

theorem prefixGrid_size (g : GridS) (m : Nat) : (prefixGrid g m).size = g.size := rfl

theorem prefixGrid_length (g : GridS) (m : Nat) :
    (prefixGrid g m).cells.length = g.cells.length := by
  unfold prefixGrid
  simp only [List.length_append, List.length_take, List.length_replicate]
  omega

theorem prefixGrid_getD (g : GridS) (m i : Nat) :
    (prefixGrid g m).cells.getD i none =
      if i < m then g.cells.getD i none else none := by
  unfold prefixGrid
  rw [List.getD_eq_getElem?_getD, List.getElem?_append, List.length_take]
  rcases le_or_lt m g.cells.length with hml | hml
  · rw [Nat.min_eq_left hml]
    by_cases h2 : i < m
    · rw [if_pos h2, List.getElem?_take, if_pos h2, if_pos h2,
        List.getD_eq_getElem?_getD]
    · rw [if_neg h2, if_neg h2, List.getElem?_replicate]
      by_cases h3 : i - m < g.cells.length - m
      · rw [if_pos h3]
        rfl
      · rw [if_neg h3]
        rfl
  · rw [Nat.min_eq_right (Nat.le_of_lt hml)]
    by_cases h2 : i < g.cells.length
    · rw [if_pos h2, List.getElem?_take, if_pos (by omega : i < m),
        if_pos (by omega : i < m), List.getD_eq_getElem?_getD]
    · have hln : g.cells.length - m = 0 := by omega
      rw [if_neg h2, hln, List.getElem?_replicate, if_neg (by omega)]
      by_cases h3 : i < m
      · rw [if_pos h3, List.getD_eq_getElem?_getD,
          List.getElem?_eq_none_iff.mpr (by omega)]
      · rw [if_neg h3]
        rfl

/-- Two grids with equal sizes, equal cell counts and pointwise equal cell
reads are equal. -/
theorem grid_eq_of_pointwise (g1 g2 : GridS) (hs : g1.size = g2.size)
    (hl : g1.cells.length = g2.cells.length)
    (hp : ∀ i, g1.cells.getD i none = g2.cells.getD i none) : g1 = g2 := by
  cases g1 with
  | mk s1 c1 =>
    cases g2 with
    | mk s2 c2 =>
      simp only at hs hl hp
      subst hs
      congr 1
      apply List.ext_getElem?
      intro i
      have hi := hp i
      rw [List.getD_eq_getElem?_getD, List.getD_eq_getElem?_getD] at hi
      cases h1 : c1[i]? with
      | none =>
        have hle : c1.length ≤ i := List.getElem?_eq_none_iff.mp h1
        have h2 : c2[i]? = none := List.getElem?_eq_none_iff.mpr (by omega)
        rw [h2]
      | some x =>
        cases h2 : c2[i]? with
        | none =>
          rcases List.getElem?_eq_some_iff.mp h1 with ⟨hlt, _⟩
          have hle : c2.length ≤ i := List.getElem?_eq_none_iff.mp h2
          exact absurd hlt (by omega)
        | some y =>
          rw [h1, h2] at hi
          simp only [Option.getD_some] at hi
          rw [hi]

/-- The prefix restriction of a grid that agrees with `g` below `m` is `g`
itself, when everything of `g` from `m` on is empty. -/
theorem prefixGrid_extends_eq (g g' : GridS) (m : Nat) (hs : g'.size = g.size)
    (hl : g'.cells.length = g.cells.length)
    (hp : ∀ i, i < m → g'.cells.getD i none = g.cells.getD i none)
    (he : EmptyFrom g m) : prefixGrid g' m = g := by
  apply grid_eq_of_pointwise
  · exact (prefixGrid_size g' m).trans hs
  · exact (prefixGrid_length g' m).trans hl
  · intro i
    rw [prefixGrid_getD]
    by_cases h1 : i < m
    · rw [if_pos h1]
      exact hp i h1
    · rw [if_neg h1, he i (by omega)]

/-! ## generateRec: unfolding equations, preservation, rollback -/

theorem generateRec_zero (C : Constraint) (rng : Nat → Nat) (g : GridS)
    (k column row : Nat) : generateRec C rng 0 g k column row = (false, g, k) := rfl

theorem generateRec_base (C : Constraint) (rng : Nat → Nat) (fuel : Nat)
    (g : GridS) (k column : Nat) :
    generateRec C rng (fuel + 1) g k column g.size = (true, g, k) := by
  unfold generateRec
  rw [if_pos rfl]

theorem generateRec_step (C : Constraint) (rng : Nat → Nat) (fuel : Nat)
    (g : GridS) (k column row : Nat) (h : row ≠ g.size) :
    generateRec C rng (fuel + 1) g k column row =
      tryNumbers C
        (fun g1 k1 => generateRec C rng fuel g1 k1 (nextColumn column g.size)
          (nextRow column row g.size))
        column row (shuffle rng k (List.range' 1 g.size)).1 g
        (shuffle rng k (List.range' 1 g.size)).2 := by
  conv_lhs => rw [generateRec]
  rw [if_neg h]

theorem tryNumbers_nil (C : Constraint) (step : GridS → Nat → Bool × GridS × Nat)
    (column row : Nat) (g : GridS) (k : Nat) :
    tryNumbers C step column row [] g k = (false, g, k) := rfl

theorem tryNumbers_cons (C : Constraint) (step : GridS → Nat → Bool × GridS × Nat)
    (column row n : Nat) (rest : List Nat) (g : GridS) (k : Nat) :
    tryNumbers C step column row (n :: rest) g k =
      if C g column row n = true then
        (if (step (setCell g column row n) k).1 = true then step (setCell g column row n) k
         else tryNumbers C step column row rest
           (clearCell (step (setCell g column row n) k).2.1 column row)
           (step (setCell g column row n) k).2.2)
      else tryNumbers C step column row rest g k := rfl

theorem emptyFrom_of_all_none (g : GridS) (h : ∀ x ∈ g.cells, x = none) :
    EmptyFrom g 0 := by
  intro i _
  rw [List.getD_eq_getElem?_getD]
  cases hx : g.cells[i]? with
  | none => rfl
  | some x =>
    have : x ∈ g.cells := List.mem_iff_getElem?.mpr ⟨i, hx⟩
    rw [h x this]
    rfl

theorem tryNumbers_preserve (C : Constraint) (step : GridS → Nat → Bool × GridS × Nat)
    (column row : Nat)
    (hstep : ∀ g1 k1, (step g1 k1).2.1.size = g1.size ∧
      (step g1 k1).2.1.cells.length = g1.cells.length) :
    ∀ (nums : List Nat) (g : GridS) (k : Nat),
      (tryNumbers C step column row nums g k).2.1.size = g.size ∧
      (tryNumbers C step column row nums g k).2.1.cells.length = g.cells.length
  | [], g, k => ⟨rfl, rfl⟩
  | n :: rest, g, k => by
    unfold tryNumbers
    by_cases hC : C g column row n = true
    · rw [if_pos hC]
      dsimp only
      by_cases hres : (step (setCell g column row n) k).1 = true
      · rw [if_pos hres]
        have h1 := hstep (setCell g column row n) k
        exact ⟨h1.1.trans (setCell_size g column row n),
          h1.2.trans (setCell_length g column row n)⟩
      · rw [if_neg hres]
        have h1 := tryNumbers_preserve C step column row hstep rest
          (clearCell (step (setCell g column row n) k).2.1 column row)
          (step (setCell g column row n) k).2.2
        have h2 := hstep (setCell g column row n) k
        constructor
        · exact h1.1.trans ((clearCell_size _ _ _).trans
            (h2.1.trans (setCell_size g column row n)))
        · exact h1.2.trans ((clearCell_length _ _ _).trans
            (h2.2.trans (setCell_length g column row n)))
    · rw [if_neg hC]
      exact tryNumbers_preserve C step column row hstep rest g k

/-- `generate_rec` never changes the grid's dimensions or cell count. -/
theorem generateRec_preserve (C : Constraint) (rng : Nat → Nat) :
    ∀ (fuel : Nat) (g : GridS) (k column row : Nat),
      (generateRec C rng fuel g k column row).2.1.size = g.size ∧
      (generateRec C rng fuel g k column row).2.1.cells.length = g.cells.length
  | 0, g, k, column, row => ⟨rfl, rfl⟩
  | fuel + 1, g, k, column, row => by
    by_cases hr : row = g.size
    · subst hr
      rw [generateRec_base]
      exact ⟨rfl, rfl⟩
    · rw [generateRec_step C rng fuel g k column row hr]
      exact tryNumbers_preserve C _ column row
        (fun g1 k1 => generateRec_preserve C rng fuel g1 k1 _ _) _ g _

theorem tryNumbers_rollback (C : Constraint) (step : GridS → Nat → Bool × GridS × Nat)
    (column row : Nat) (g : GridS)
    (hroll : ∀ m k1, (step (setCell g column row m) k1).1 = false →
      (step (setCell g column row m) k1).2.1 = setCell g column row m)
    (hEmpty : g.cells.getD (row * g.size + column) none = none) :
    ∀ (nums : List Nat) (k : Nat),
      (tryNumbers C step column row nums g k).1 = false →
      (tryNumbers C step column row nums g k).2.1 = g
  | [], k, _ => rfl
  | n :: rest, k, hfalse => by
    unfold tryNumbers at hfalse ⊢
    by_cases hC : C g column row n = true
    · rw [if_pos hC] at hfalse ⊢
      dsimp only at hfalse ⊢
      by_cases hres : (step (setCell g column row n) k).1 = true
      · rw [if_pos hres] at hfalse
        rw [hfalse] at hres
        exact absurd hres (by simp)
      · rw [if_neg hres] at hfalse ⊢
        have hg : clearCell (step (setCell g column row n) k).2.1 column row = g := by
          rw [hroll n k (by revert hres; cases (step (setCell g column row n) k).1 <;> simp)]
          exact clear_setCell g column row n hEmpty
        rw [hg] at hfalse ⊢
        exact tryNumbers_rollback C step column row g hroll hEmpty rest _ hfalse
    · rw [if_neg hC] at hfalse ⊢
      exact tryNumbers_rollback C step column row g hroll hEmpty rest k hfalse

/-- Rollback discipline of `generate_rec`: a failed call leaves the grid
exactly as it found it, provided every cell from the current position onward
was empty at entry (as is the case on every call the generator makes). -/
theorem generateRec_rollback (C : Constraint) (rng : Nat → Nat) :
    ∀ (fuel : Nat) (g : GridS) (k column row : Nat), column < g.size →
      EmptyFrom g (row * g.size + column) →
      (generateRec C rng fuel g k column row).1 = false →
      (generateRec C rng fuel g k column row).2.1 = g
  | 0, g, k, column, row, _, _, _ => rfl
  | fuel + 1, g, k, column, row, hc, he, hfalse => by
    by_cases hr : row = g.size
    · subst hr
      rw [generateRec_base] at hfalse
      exact absurd hfalse (by simp)
    · rw [generateRec_step C rng fuel g k column row hr] at hfalse ⊢
      refine tryNumbers_rollback C _ column row g ?_ (he _ (le_refl _)) _ _ hfalse
      intro m k1 hf1
      exact generateRec_rollback C rng fuel (setCell g column row m) k1
        (nextColumn column g.size) (nextRow column row g.size)
        (nextColumn_lt column g.size hc)
        (by
          have h1 := emptyFrom_setCell g column row m he
          have h2 := idx_next column row g.size hc
          rw [setCell_size]
          rw [h2]
          exact h1) hf1

/-! ## generateRec: success invariant -/

theorem setCell_getD_self (g : GridS) (column row m : Nat)
    (h : row * g.size + column < g.cells.length) :
    (setCell g column row m).cells.getD (row * g.size + column) none = some m :=
  getD_set_self_of_lt _ _ _ _ h

theorem setCell_getD_ne (g : GridS) (column row m i : Nat)
    (h : i ≠ row * g.size + column) :
    (setCell g column row m).cells.getD i none = g.cells.getD i none :=
  getD_set_ne _ _ _ _ _ (Ne.symm h)

theorem tryNumbers_success_spec (C : Constraint)
    (step : GridS → Nat → Bool × GridS × Nat) (column row : Nat) (g : GridS)
    (hroll : ∀ m k1, (step (setCell g column row m) k1).1 = false →
      (step (setCell g column row m) k1).2.1 = setCell g column row m)
    (hEmpty : g.cells.getD (row * g.size + column) none = none) :
    ∀ (nums : List Nat) (k : Nat),
      (tryNumbers C step column row nums g k).1 = true →
      ∃ m k1, m ∈ nums ∧ C g column row m = true ∧
        tryNumbers C step column row nums g k = step (setCell g column row m) k1 ∧
        (step (setCell g column row m) k1).1 = true
  | [], k, htrue => by
    exact absurd htrue (by simp [tryNumbers])
  | n :: rest, k, htrue => by
    by_cases hC : C g column row n = true
    · by_cases hres : (step (setCell g column row n) k).1 = true
      · refine ⟨n, k, List.mem_cons_self n rest, hC, ?_, hres⟩
        rw [tryNumbers_cons, if_pos hC, if_pos hres]
      · have hg : clearCell (step (setCell g column row n) k).2.1 column row = g := by
          rw [hroll n k (by revert hres; cases (step (setCell g column row n) k).1 <;> simp)]
          exact clear_setCell g column row n hEmpty
        have hrw : tryNumbers C step column row (n :: rest) g k =
            tryNumbers C step column row rest g
              (step (setCell g column row n) k).2.2 := by
          rw [tryNumbers_cons, if_pos hC, if_neg hres, hg]
        rw [hrw] at htrue
        obtain ⟨m, k1, hmem, hCm, heq, hs⟩ :=
          tryNumbers_success_spec C step column row g hroll hEmpty rest _ htrue
        exact ⟨m, k1, List.mem_cons_of_mem n hmem, hCm, hrw.trans heq, hs⟩
    · have hrw : tryNumbers C step column row (n :: rest) g k =
          tryNumbers C step column row rest g k := by
        rw [tryNumbers_cons, if_neg hC]
      rw [hrw] at htrue
      obtain ⟨m, k1, hmem, hCm, heq, hs⟩ :=
        tryNumbers_success_spec C step column row g hroll hEmpty rest k htrue
      exact ⟨m, k1, List.mem_cons_of_mem n hmem, hCm, hrw.trans heq, hs⟩

/-- The invariant established by a successful `generate_rec` call: the result
extends the entry grid from the current position on, every newly filled cell
holding a digit in `1..=size` that the constraint accepted against the grid
state at the moment of its placement. -/
theorem generateRec_success (C : Constraint) (rng : Nat → Nat) :
    ∀ (fuel : Nat) (g : GridS) (k column row : Nat), column < g.size →
      row ≤ g.size → g.cells.length = g.size * g.size →
      EmptyFrom g (row * g.size + column) →
      (generateRec C rng fuel g k column row).1 = true →
      ExtendsFrom C g (row * g.size + column)
        (generateRec C rng fuel g k column row).2.1
  | 0, g, k, column, row, _, _, _, _, htrue => by
    exact absurd htrue (by simp [generateRec])
  | fuel + 1, g, k, column, row, hc, hrle, hwf, he, htrue => by
    by_cases hr : row = g.size
    · subst hr
      rw [generateRec_base]
      exact ⟨rfl, rfl, fun i _ => rfl, fun i hge hlt => absurd hlt (by omega)⟩
    · have hrow : row < g.size := by omega
      rw [generateRec_step C rng fuel g k column row hr] at htrue ⊢
      have hroll : ∀ m k1,
          ((fun g1 k1 => generateRec C rng fuel g1 k1 (nextColumn column g.size)
            (nextRow column row g.size)) (setCell g column row m) k1).1 = false →
          ((fun g1 k1 => generateRec C rng fuel g1 k1 (nextColumn column g.size)
            (nextRow column row g.size)) (setCell g column row m) k1).2.1 =
            setCell g column row m := by
        intro m k1 hf
        refine generateRec_rollback C rng fuel (setCell g column row m) k1
          (nextColumn column g.size) (nextRow column row g.size)
          (nextColumn_lt column g.size hc) ?_ hf
        rw [setCell_size, idx_next column row g.size hc]
        exact emptyFrom_setCell g column row m he
      obtain ⟨m, k1, hmem, hCm, heq, hs⟩ :=
        tryNumbers_success_spec C _ column row g hroll (he _ (le_refl _)) _ _ htrue
      rw [heq]
      have hmb := (mem_shuffled_candidates rng k g.size m).mp hmem
      have hidx : row * g.size + column < g.cells.length := by
        rw [hwf]
        exact idx_lt_sq column row g.size hc hrow
      have hext := generateRec_success C rng fuel (setCell g column row m) k1
        (nextColumn column g.size) (nextRow column row g.size)
        (by rw [setCell_size]; exact nextColumn_lt column g.size hc)
        (by rw [setCell_size]; exact nextRow_le column row g.size hrow)
        (by rw [setCell_size, setCell_length]; exact hwf)
        (by
          rw [setCell_size, idx_next column row g.size hc]
          exact emptyFrom_setCell g column row m he)
        hs
      obtain ⟨hx1, hx2, hx3, hx4⟩ := hext
      have hstep_idx : nextRow column row g.size * g.size + nextColumn column g.size
          = row * g.size + column + 1 := idx_next column row g.size hc
      refine ⟨hx1, hx2.trans (setCell_length g column row m), ?_, ?_⟩
      · intro i hi
        have hb : i < nextRow column row g.size * (setCell g column row m).size +
            nextColumn column g.size := by
          rw [setCell_size, hstep_idx]
          omega
        rw [hx3 i hb]
        exact setCell_getD_ne g column row m i (by omega)
      · intro i hge hlt
        by_cases hie : i = row * g.size + column
        · subst hie
          refine ⟨m, ?_, hmb.1, hmb.2, ?_⟩
          · have hb : row * g.size + column <
                nextRow column row g.size * (setCell g column row m).size +
                nextColumn column g.size := by
              rw [setCell_size, hstep_idx]
              omega
            rw [hx3 _ hb]
            exact setCell_getD_self g column row m hidx
          · rw [idx_mod column row g.size hc, idx_div column row g.size hc]
            have hpre : prefixGrid (generateRec C rng fuel (setCell g column row m) k1
                (nextColumn column g.size) (nextRow column row g.size)).2.1
                (row * g.size + column) = g := by
              refine prefixGrid_extends_eq g _ _ hx1
                (hx2.trans (setCell_length g column row m)) ?_ he
              intro j hj
              have hb : j < nextRow column row g.size * (setCell g column row m).size +
                  nextColumn column g.size := by
                rw [setCell_size, hstep_idx]
                omega
              rw [hx3 j hb]
              exact setCell_getD_ne g column row m j (by omega)
            rw [hpre]
            exact hCm
        · have hge2 : nextRow column row g.size * (setCell g column row m).size +
              nextColumn column g.size ≤ i := by
            rw [setCell_size, hstep_idx]
            omega
          have hlt2 : i < (setCell g column row m).size * (setCell g column row m).size := by
            rw [setCell_size]
            exact hlt
          exact hx4 i hge2 hlt2

/-! ## Claim C8 -/

/-- C8 (amended): if `generate_rec` returns `false` from a call on a grid
whose cells at the current position and beyond are all empty — as on every
call the generator actually makes, starting from the empty grid — the grid
at return is exactly the grid at entry: every provisional placement has been
rolled back. -/
theorem c8_generateRec_rollback (C : Constraint) (rng : Nat → Nat) (fuel : Nat)
    (g : GridS) (k column row : Nat) (hc : column < g.size)
    (he : EmptyFrom g (row * g.size + column))
    (hf : (generateRec C rng fuel g k column row).1 = false) :
    (generateRec C rng fuel g k column row).2.1 = g :=
  generateRec_rollback C rng fuel g k column row hc he hf

theorem c8_witness :
    (generateRec constraintFalse rngZero 5 ⟨1, [none]⟩ 0 0 0).2.1 = ⟨1, [none]⟩ :=
  c8_generateRec_rollback constraintFalse rngZero 5 ⟨1, [none]⟩ 0 0 0 (by decide)
    (emptyFrom_of_all_none ⟨1, [none]⟩ (by decide)) (by decide)

/-- C8 counterexample: for an entry grid that already holds a digit at the
current cell, a failing `generate_rec` call does **not** restore the grid:
with a constraint accepting placements only at `(0,0)` on a `2 × 2` grid
whose cell `(0,0)` holds `5`, the search fails and returns the grid with
that cell cleared, not the entry grid. -/
theorem c8_counterexample :
    (generateRec constraintTopLeft rngZero 5 ⟨2, [some 5, none, none, none]⟩ 0 0 0).1
      = false ∧
    (generateRec constraintTopLeft rngZero 5 ⟨2, [some 5, none, none, none]⟩ 0 0 0).2.1
      ≠ ⟨2, [some 5, none, none, none]⟩ := by
  constructor
  · decide
  · decide

/-! ## generateRec: exhaustiveness -/

theorem tryNumbers_complete (C : Constraint) (step : GridS → Nat → Bool × GridS × Nat)
    (column row : Nat) (g : GridS) (d : Nat)
    (hroll : ∀ m k1, (step (setCell g column row m) k1).1 = false →
      (step (setCell g column row m) k1).2.1 = setCell g column row m)
    (hEmpty : g.cells.getD (row * g.size + column) none = none)
    (hC : C g column row d = true)
    (hsucc : ∀ k1, (step (setCell g column row d) k1).1 = true) :
    ∀ (nums : List Nat) (k : Nat), d ∈ nums →
      (tryNumbers C step column row nums g k).1 = true
  | [], _, hmem => absurd hmem (List.not_mem_nil d)
  | n :: rest, k, hmem => by
    rw [tryNumbers_cons]
    by_cases hC2 : C g column row n = true
    · rw [if_pos hC2]
      by_cases hres : (step (setCell g column row n) k).1 = true
      · rw [if_pos hres]
        exact hres
      · rw [if_neg hres]
        by_cases hnd : n = d
        · subst hnd
          exact absurd (hsucc k) hres
        · have hg : clearCell (step (setCell g column row n) k).2.1 column row = g := by
            rw [hroll n k (by revert hres; cases (step (setCell g column row n) k).1 <;> simp)]
            exact clear_setCell g column row n hEmpty
          rw [hg]
          have hrest : d ∈ rest := by
            rcases List.mem_cons.mp hmem with h | h
            · exact absurd h.symm hnd
            · exact h
          exact tryNumbers_complete C step column row g d hroll hEmpty hC hsucc rest _ hrest
    · rw [if_neg hC2]
      have hrest : d ∈ rest := by
        rcases List.mem_cons.mp hmem with h | h
        · exact absurd (h ▸ hC) hC2
        · exact h
      exact tryNumbers_complete C step column row g d hroll hEmpty hC hsucc rest k hrest

/-- The search of `generate_rec` is exhaustive: with sufficient fuel, it
succeeds exactly when an extension of the current grid exists in which every
remaining cell holds a digit accepted at its placement moment.  The
right-hand side does not mention the random source: success is independent
of the shuffle draws. -/
theorem generateRec_true_iff (C : Constraint) (rng : Nat → Nat) :
    ∀ (fuel : Nat) (g : GridS) (k column row : Nat), column < g.size →
      row ≤ g.size → (row = g.size → column = 0) →
      g.cells.length = g.size * g.size →
      EmptyFrom g (row * g.size + column) →
      g.size * g.size + 1 ≤ fuel + (row * g.size + column) →
      ((generateRec C rng fuel g k column row).1 = true ↔
        ∃ g', ExtendsFrom C g (row * g.size + column) g')
  | 0, g, k, column, row, hc, hrle, h0, hwf, he, hfuel => by
    exfalso
    by_cases hr : row = g.size
    · have hcz := h0 hr
      rw [hcz, hr] at hfuel
      omega
    · have hrow : row < g.size := by omega
      have := idx_lt_sq column row g.size hc hrow
      omega
  | fuel + 1, g, k, column, row, hc, hrle, h0, hwf, he, hfuel => by
    by_cases hr : row = g.size
    · subst hr
      rw [generateRec_base]
      constructor
      · intro _
        exact ⟨g, rfl, rfl, fun i _ => rfl, fun i hge hlt => absurd hlt (by omega)⟩
      · intro _
        rfl
    · have hrow : row < g.size := by omega
      have hroll : ∀ m k1,
          (generateRec C rng fuel (setCell g column row m) k1 (nextColumn column g.size)
            (nextRow column row g.size)).1 = false →
          (generateRec C rng fuel (setCell g column row m) k1 (nextColumn column g.size)
            (nextRow column row g.size)).2.1 = setCell g column row m := by
        intro m k1 hf
        refine generateRec_rollback C rng fuel (setCell g column row m) k1
          (nextColumn column g.size) (nextRow column row g.size)
          (nextColumn_lt column g.size hc) ?_ hf
        rw [setCell_size, idx_next column row g.size hc]
        exact emptyFrom_setCell g column row m he
      have hstep_idx : nextRow column row g.size * g.size + nextColumn column g.size
          = row * g.size + column + 1 := idx_next column row g.size hc
      constructor
      · intro htrue
        exact ⟨_, generateRec_success C rng (fuel + 1) g k column row hc hrle hwf he htrue⟩
      · rintro ⟨g', hext⟩
        rw [generateRec_step C rng fuel g k column row hr]
        obtain ⟨d, hd, hd1, hdn, hvalid⟩ := hext.2.2.2 (row * g.size + column)
          (le_refl _) (by rw [hwf] at *; exact idx_lt_sq column row g.size hc hrow)
        have hpre : prefixGrid g' (row * g.size + column) = g :=
          prefixGrid_extends_eq g g' _ hext.1 hext.2.1 hext.2.2.1 he
        rw [idx_mod column row g.size hc, idx_div column row g.size hc, hpre] at hvalid
        have hmem : d ∈ (shuffle rng k (List.range' 1 g.size)).1 :=
          (mem_shuffled_candidates rng k g.size d).mpr ⟨hd1, hdn⟩
        refine tryNumbers_complete C _ column row g d hroll (he _ (le_refl _))
          hvalid ?_ _ _ hmem
        intro k1
        have hidx : row * g.size + column < g.cells.length := by
          rw [hwf]
          exact idx_lt_sq column row g.size hc hrow
        have hiff := generateRec_true_iff C rng fuel (setCell g column row d) k1
          (nextColumn column g.size) (nextRow column row g.size)
          (by rw [setCell_size]; exact nextColumn_lt column g.size hc)
          (by rw [setCell_size]; exact nextRow_le column row g.size hrow)
          (fun hnr => nextRow_size_imp column row g.size hrow hnr)
          (by rw [setCell_size, setCell_length]; exact hwf)
          (by
            rw [setCell_size, idx_next column row g.size hc]
            exact emptyFrom_setCell g column row d he)
          (by rw [setCell_size, idx_next column row g.size hc]; omega)
        refine hiff.mpr ⟨g', hext.1, hext.2.1.trans (setCell_length g column row d).symm,
          ?_, ?_⟩
        · intro i hi
          have hi2 : i < row * g.size + column + 1 := by
            rw [setCell_size, hstep_idx] at hi
            exact hi
          by_cases hie : i = row * g.size + column
          · subst hie
            rw [hd, setCell_getD_self g column row d hidx]
          · rw [hext.2.2.1 i (by omega), setCell_getD_ne g column row d i hie]
        · intro i hge hlt
          have hge2 : row * g.size + column ≤ i := by
            rw [setCell_size, hstep_idx] at hge
            omega
          have hlt2 : i < g.size * g.size := by
            rw [setCell_size] at hlt
            exact hlt
          exact hext.2.2.2 i hge2 hlt2

/-! ## generate: top-level lemmas -/

theorem countClues_full (g : GridS)
    (h : ∀ i, i < g.cells.length → ∃ d, g.cells.getD i none = some d) :
    countClues g = g.cells.length := by
  unfold countClues
  rw [List.countP_eq_length]
  intro a ha
  obtain ⟨i, hi⟩ := List.mem_iff_getElem?.mp ha
  rcases List.getElem?_eq_some_iff.mp hi with ⟨hlen, _⟩
  obtain ⟨d, hd⟩ := h i hlen
  rw [List.getD_eq_getElem?_getD, hi] at hd
  simp only [Option.getD_some] at hd
  rw [hd]
  rfl

theorem generate_pos_eq (C : Constraint) (rng : Nat → Nat) (k bw bh : Nat)
    (hbw : 1 ≤ bw) (hbh : 1 ≤ bh) :
    generate C rng k bw bh =
      (if (generateRec C rng (bw * bh * (bw * bh) + 1)
            ⟨bw * bh, List.replicate (bw * bh * (bw * bh)) none⟩ k 0 0).1 = true
       then Except.ok ((generateRec C rng (bw * bh * (bw * bh) + 1)
            ⟨bw * bh, List.replicate (bw * bh * (bw * bh)) none⟩ k 0 0).2.1,
            (generateRec C rng (bw * bh * (bw * bh) + 1)
            ⟨bw * bh, List.replicate (bw * bh * (bw * bh)) none⟩ k 0 0).2.2)
       else Except.error SudokuError.UnsatisfiableConstraint) := by
  unfold generate newEmpty
  rw [if_neg (by omega : ¬(bw = 0 ∨ bh = 0))]

theorem emptyGrid_emptyFrom (n m : Nat) :
    EmptyFrom ⟨n, List.replicate (n * n) none⟩ m :=
  emptyFrom_mono _ 0 m (Nat.zero_le m)
    (emptyFrom_of_all_none _ (fun _ hx => List.eq_of_mem_replicate hx))

theorem extendsFrom_empty_iff (C : Constraint) (n : Nat) (g' : GridS) :
    ExtendsFrom C ⟨n, List.replicate (n * n) none⟩ 0 g' ↔
      PrefixCompletion C n g' := by
  unfold ExtendsFrom PrefixCompletion
  constructor
  · rintro ⟨h1, h2, _, h4⟩
    refine ⟨h1, h2.trans (List.length_replicate _ _), fun i hi => h4 i (Nat.zero_le i) hi⟩
  · rintro ⟨h1, h2, h3⟩
    exact ⟨h1, h2.trans (List.length_replicate _ _).symm, fun i hi => absurd hi (by omega),
      fun i _ hi => h3 i hi⟩

/-! ## Claims C1 and C6 -/

/-- C1 (amended): whenever `Generator::generate` succeeds (for positive block
dimensions), the returned grid is completely filled — every cell holds a
digit in `1..=size`, so `count_clues` equals `size²` — and each cell's digit
was accepted by `is_valid_number` at the moment of its placement, i.e.
against the grid holding exactly the final digits of the cells preceding it
in row-major order (all later cells still empty).  For arbitrary
deterministic constraints, acceptance on the full final grid does **not**
follow (see the counterexample). -/
theorem c1_generate_success_filled_and_placement_valid (C : Constraint)
    (rng : Nat → Nat) (k blockWidth blockHeight : Nat) (g' : GridS) (k' : Nat)
    (hbw : 1 ≤ blockWidth) (hbh : 1 ≤ blockHeight)
    (hok : generate C rng k blockWidth blockHeight = Except.ok (g', k')) :
    g'.size = blockWidth * blockHeight ∧
    countClues g' = blockWidth * blockHeight * (blockWidth * blockHeight) ∧
    (∀ column row, column < blockWidth * blockHeight →
      row < blockWidth * blockHeight →
      ∃ d, getCell g' column row = some d ∧ 1 ≤ d ∧ d ≤ blockWidth * blockHeight ∧
        C (prefixGrid g' (row * (blockWidth * blockHeight) + column)) column row d
          = true) := by
  rw [generate_pos_eq C rng k blockWidth blockHeight hbw hbh] at hok
  by_cases hres : (generateRec C rng (blockWidth * blockHeight * (blockWidth * blockHeight) + 1)
      ⟨blockWidth * blockHeight, List.replicate (blockWidth * blockHeight * (blockWidth * blockHeight)) none⟩
      k 0 0).1 = true
  case neg =>
    rw [if_neg hres] at hok
    exact absurd hok (by simp)
  case pos =>
    rw [if_pos hres] at hok
    have hg' :
        (generateRec C rng (blockWidth * blockHeight * (blockWidth * blockHeight) + 1)
          ⟨blockWidth * blockHeight,
            List.replicate (blockWidth * blockHeight * (blockWidth * blockHeight)) none⟩
          k 0 0).2.1 = g' := by
      cases hok
      rfl
    have hn : 1 ≤ blockWidth * blockHeight := by
      have := Nat.mul_le_mul hbw hbh
      omega
    have hext := generateRec_success C rng
      (blockWidth * blockHeight * (blockWidth * blockHeight) + 1)
      ⟨blockWidth * blockHeight,
        List.replicate (blockWidth * blockHeight * (blockWidth * blockHeight)) none⟩
      k 0 0 (by exact hn) (by exact Nat.zero_le _)
      (by rw [List.length_replicate]) (emptyGrid_emptyFrom _ _) hres
    rw [hg'] at hext
    obtain ⟨hx1, hx2, _, hx4⟩ := hext
    have hlen : g'.cells.length =
        blockWidth * blockHeight * (blockWidth * blockHeight) :=
      hx2.trans (List.length_replicate _ _)
    refine ⟨hx1, ?_, ?_⟩
    · rw [countClues_full g' ?_, hlen]
      intro i hi
      obtain ⟨d, hd, _, _, _⟩ := hx4 i (by omega) (by rw [hlen] at hi; exact hi)
      exact ⟨d, hd⟩
    · intro column row hcol hrow
      have hidx := idx_lt_sq column row (blockWidth * blockHeight) hcol hrow
      obtain ⟨d, hd, hd1, hdn, hvalid⟩ :=
        hx4 (row * (blockWidth * blockHeight) + column) (by omega) hidx
      refine ⟨d, ?_, hd1, hdn, ?_⟩
      · unfold getCell
        rw [hx1]
        exact hd
      · rw [idx_mod column row (blockWidth * blockHeight) hcol,
          idx_div column row (blockWidth * blockHeight) hcol] at hvalid
        exact hvalid

theorem c1_witness : countClues ⟨1, [some 1]⟩ = 1 :=
  (c1_generate_success_filled_and_placement_valid constraintTrue rngZero 0 1 1
    ⟨1, [some 1]⟩ 0 (by decide) (by decide) rfl).2.1

/-- C1 counterexample: the claim quantifies over **every** deterministic,
side-effect-free constraint and asserts `is_valid_number` accepts each cell's
digit given all the other cells of the final grid.  With the constraint that
accepts a placement exactly while cell `(1,1)` of a `2 × 2` grid is still
empty, generation succeeds with the full grid `[1,1,1,1]`, yet on that final
grid `is_valid_number` rejects the digit of cell `(0,0)` — validity held only
at placement time. -/
theorem c1_counterexample :
    generate constraintCellThreeEmpty rngZero 0 2 1 =
      Except.ok (⟨2, [some 1, some 1, some 1, some 1]⟩, 0) ∧
    constraintCellThreeEmpty ⟨2, [some 1, some 1, some 1, some 1]⟩ 0 0 1 = false := by
  constructor
  · rfl
  · decide

/-- C6: for positive block dimensions, `Generator::generate` returns the
*unsatisfiable constraint* error exactly when the exhaustive backtracking
search finds no completely filled grid whose every digit was accepted by the
constraint at its placement moment — equivalently, no such completion
exists at all (the right-hand side is independent of the random source).
`Reducer::reduce` has no error outcome at all: its embedded type returns a
grid unconditionally. -/
theorem c6_unsatisfiable_iff_no_completion (C : Constraint) (rng : Nat → Nat)
    (k blockWidth blockHeight : Nat) (hbw : 1 ≤ blockWidth)
    (hbh : 1 ≤ blockHeight) :
    (generate C rng k blockWidth blockHeight =
        Except.error SudokuError.UnsatisfiableConstraint) ↔
      ¬ ∃ g', PrefixCompletion C (blockWidth * blockHeight) g' := by
  have hn : 1 ≤ blockWidth * blockHeight := by
    have := Nat.mul_le_mul hbw hbh
    omega
  have hiff := generateRec_true_iff C rng
    (blockWidth * blockHeight * (blockWidth * blockHeight) + 1)
    ⟨blockWidth * blockHeight,
      List.replicate (blockWidth * blockHeight * (blockWidth * blockHeight)) none⟩
    k 0 0 (by exact hn) (by exact Nat.zero_le _) (fun _ => rfl)
    (by rw [List.length_replicate])
    (emptyGrid_emptyFrom _ _)
    (by
      show blockWidth * blockHeight * (blockWidth * blockHeight) + 1 ≤
        blockWidth * blockHeight * (blockWidth * blockHeight) + 1 +
          (0 * (blockWidth * blockHeight) + 0)
      omega)
  simp only [Nat.zero_mul, Nat.add_zero] at hiff
  rw [generate_pos_eq C rng k blockWidth blockHeight hbw hbh]
  by_cases hres : (generateRec C rng (blockWidth * blockHeight * (blockWidth * blockHeight) + 1)
      ⟨blockWidth * blockHeight, List.replicate (blockWidth * blockHeight * (blockWidth * blockHeight)) none⟩
      k 0 0).1 = true
  · rw [if_pos hres]
    constructor
    · intro h
      exact absurd h (by simp)
    · intro hno
      obtain ⟨g', hext⟩ := hiff.mp hres
      exact absurd ⟨g', (extendsFrom_empty_iff C (blockWidth * blockHeight) g').mp hext⟩ hno
  · rw [if_neg hres]
    constructor
    · intro _
      rintro ⟨g', hcomp⟩
      exact hres (hiff.mpr
        ⟨g', (extendsFrom_empty_iff C (blockWidth * blockHeight) g').mpr hcomp⟩)
    · intro _
      rfl

theorem c6_witness :
    (generate constraintFalse rngZero 0 1 1 =
        Except.error SudokuError.UnsatisfiableConstraint) ↔
      ¬ ∃ g', PrefixCompletion constraintFalse 1 g' :=
  c6_unsatisfiable_iff_no_completion constraintFalse rngZero 0 1 1
    (by decide) (by decide)

/-! ## Claim C5 -/

/-- C5: calling `Generator::generate` with a zero block width or height
fails with the *invalid dimensions* error of the puzzle constructor, before
any search step, and no grid — partial or otherwise — is produced (the
result carries only the error). -/
theorem c5_zero_dimension_invalid (C : Constraint) (rng : Nat → Nat)
    (k blockWidth blockHeight : Nat) (h : blockWidth = 0 ∨ blockHeight = 0) :
    generate C rng k blockWidth blockHeight =
      Except.error SudokuError.InvalidDimensions := by
  unfold generate newEmpty
  rw [if_pos h]

theorem c5_witness :
    generate constraintTrue rngZero 0 0 3 =
      Except.error SudokuError.InvalidDimensions :=
  c5_zero_dimension_invalid constraintTrue rngZero 0 0 3 (Or.inl rfl)

/-! ## Claim C9 -/

theorem tryNumbers_congr (C : Constraint)
    (step1 step2 : GridS → Nat → Bool × GridS × Nat) (column row n : Nat)
    (hsize : ∀ g1 k1, (step1 g1 k1).2.1.size = g1.size)
    (hstep : ∀ g1 k1, g1.size = n → step1 g1 k1 = step2 g1 k1) :
    ∀ (nums : List Nat) (g : GridS) (k : Nat), g.size = n →
      tryNumbers C step1 column row nums g k = tryNumbers C step2 column row nums g k
  | [], _, _, _ => rfl
  | m :: rest, g, k, hg => by
    rw [tryNumbers_cons, tryNumbers_cons]
    by_cases hC : C g column row m = true
    · rw [if_pos hC, if_pos hC]
      have hs : step1 (setCell g column row m) k = step2 (setCell g column row m) k :=
        hstep _ _ (by rw [setCell_size]; exact hg)
      rw [← hs]
      by_cases hres : (step1 (setCell g column row m) k).1 = true
      · rw [if_pos hres, if_pos hres]
      · rw [if_neg hres, if_neg hres]
        refine tryNumbers_congr C step1 step2 column row n hsize hstep rest _ _ ?_
        rw [clearCell_size, hsize, setCell_size]
        exact hg
    · rw [if_neg hC, if_neg hC]
      exact tryNumbers_congr C step1 step2 column row n hsize hstep rest g k hg

/-- C9: the search of `generate_rec` terminates — embedded with fuel, any two
fuel budgets that cover the remaining `size² − (row·size + column)` cell
positions (plus the final base-case frame) produce identical results: the
recursion, which strictly advances the row-major position on every call and
exhausts a finite candidate list in every frame, never needs more than the
fuel `size² + 1` that `generate` supplies. -/
theorem c9_generateRec_fuel_stable (C : Constraint) (rng : Nat → Nat) :
    ∀ (f1 f2 : Nat) (g : GridS) (k column row : Nat), column < g.size →
      row ≤ g.size → (row = g.size → column = 0) →
      g.size * g.size + 1 ≤ f1 + (row * g.size + column) →
      g.size * g.size + 1 ≤ f2 + (row * g.size + column) →
      generateRec C rng f1 g k column row = generateRec C rng f2 g k column row
  | 0, f2, g, k, column, row, hc, hrle, h0, hf1, _ => by
    exfalso
    by_cases hr : row = g.size
    · have hcz := h0 hr
      rw [hcz, hr] at hf1
      omega
    · have hrow : row < g.size := by omega
      have := idx_lt_sq column row g.size hc hrow
      omega
  | f1 + 1, 0, g, k, column, row, hc, hrle, h0, _, hf2 => by
    exfalso
    by_cases hr : row = g.size
    · have hcz := h0 hr
      rw [hcz, hr] at hf2
      omega
    · have hrow : row < g.size := by omega
      have := idx_lt_sq column row g.size hc hrow
      omega
  | f1 + 1, f2 + 1, g, k, column, row, hc, hrle, h0, hf1, hf2 => by
    by_cases hr : row = g.size
    · subst hr
      rw [generateRec_base, generateRec_base]
    · have hrow : row < g.size := by omega
      have hstep_idx : nextRow column row g.size * g.size + nextColumn column g.size
          = row * g.size + column + 1 := idx_next column row g.size hc
      rw [generateRec_step C rng f1 g k column row hr,
        generateRec_step C rng f2 g k column row hr]
      refine tryNumbers_congr C _ _ column row g.size
        (fun g1 k1 => (generateRec_preserve C rng f1 g1 k1 _ _).1) ?_ _ g _ rfl
      intro g1 k1 hg1
      refine c9_generateRec_fuel_stable C rng f1 f2 g1 k1 (nextColumn column g.size)
        (nextRow column row g.size) ?_ ?_ ?_ ?_ ?_
      · rw [hg1]
        exact nextColumn_lt column g.size hc
      · rw [hg1]
        exact nextRow_le column row g.size hrow
      · intro hnr
        rw [hg1] at hnr
        exact nextRow_size_imp column row g.size hrow hnr
      · rw [hg1, hstep_idx]
        omega
      · rw [hg1, hstep_idx]
        omega

theorem c9_witness :
    generateRec constraintTrue rngZero 5 ⟨1, [none]⟩ 0 0 0 =
      generateRec constraintTrue rngZero 6 ⟨1, [none]⟩ 0 0 0 :=
  c9_generateRec_fuel_stable constraintTrue rngZero 5 6 ⟨1, [none]⟩ 0 0 0
    (by decide) (by decide) (fun _ => rfl) (by decide) (by decide)

/-! ## Claim C7 -/

/-- C7: `generate_rec` (i) succeeds immediately exactly at the base case
`row = size`; (ii) otherwise runs the candidate loop over the digits
`1..=size` in the shuffled order, recursing at the next row-major position;
(iii)/(iv) the next position advances the column, wrapping to column `0` of
the next row after column `size − 1`; (v) the candidate list is a
permutation of `1..=size`; (vi) the first candidate whose recursive call
succeeds is returned immediately, without examining the remaining
candidates. -/
theorem c7_search_order (C : Constraint) (rng : Nat → Nat) (fuel : Nat)
    (g : GridS) (k column row : Nat) :
    (generateRec C rng (fuel + 1) g k column g.size = (true, g, k)) ∧
    (row ≠ g.size →
      generateRec C rng (fuel + 1) g k column row =
        tryNumbers C
          (fun g1 k1 => generateRec C rng fuel g1 k1 (nextColumn column g.size)
            (nextRow column row g.size))
          column row (shuffle rng k (List.range' 1 g.size)).1 g
          (shuffle rng k (List.range' 1 g.size)).2) ∧
    (column + 1 < g.size → nextColumn column g.size = column + 1 ∧
      nextRow column row g.size = row) ∧
    (column + 1 = g.size → nextColumn column g.size = 0 ∧
      nextRow column row g.size = row + 1) ∧
    ((shuffle rng k (List.range' 1 g.size)).1.Perm (List.range' 1 g.size)) ∧
    (∀ m rest g1 k1, C g1 column row m = true →
      (generateRec C rng fuel (setCell g1 column row m) k1 (nextColumn column g.size)
        (nextRow column row g.size)).1 = true →
      tryNumbers C
        (fun g2 k2 => generateRec C rng fuel g2 k2 (nextColumn column g.size)
          (nextRow column row g.size))
        column row (m :: rest) g1 k1 =
        generateRec C rng fuel (setCell g1 column row m) k1 (nextColumn column g.size)
          (nextRow column row g.size)) := by
  refine ⟨generateRec_base C rng fuel g k column,
    fun h => generateRec_step C rng fuel g k column row h, ?_, ?_,
    shuffle_perm rng k (List.range' 1 g.size), ?_⟩
  · intro h
    refine ⟨Nat.mod_eq_of_lt h, ?_⟩
    unfold nextRow
    rw [Nat.mod_eq_of_lt h, if_neg (by omega)]
  · intro h
    constructor
    · unfold nextColumn
      rw [h, Nat.mod_self]
    · unfold nextRow
      rw [h, Nat.mod_self, if_pos rfl]
  · intro m rest g1 k1 hC hres
    rw [tryNumbers_cons, if_pos hC, if_pos hres]

theorem c7_witness : nextColumn 0 2 = 1 ∧ nextRow 0 0 2 = 0 :=
  (c7_search_order constraintTrue rngZero 0 ⟨2, [none, none, none, none]⟩ 0 0 0).2.2.1
    (by decide)

end SudokuGen
